import Mathlib

/-!
A shallow embedding of the core of the `dfs` distributed-filesystem daemon
(crate `dfs`), covering the global store (peers, roots, root-name index),
the per-root local store of directory entries, the `Dfs` facade operations
`new_peer` / `new_root`, `ConnectedRoot::root_dir`, and the concurrent
directory indexer of `src/root/index.rs`.

Modelling conventions:
- 128-bit `Uuid` values are modelled as `Nat`; the random fresh-uuid supply
  (`Uuid::new_v4`) is modelled by an explicit counter passed to each
  allocating operation, so freshness is "not yet present in the store".
- The key-value backends (heed / sled) are modelled as association lists;
  a write transaction that commits is one functional update of the state.
- Backend I/O errors are outside the model: the embedded operations are the
  success-path semantics of the store contract, which is what the claims
  under scrutiny quantify over.
- The concurrent indexer is embedded sequentially: workers communicate with
  the single persister only through the db queue and its oneshot reply
  channel, so every schedule persists a child strictly after its parent and
  produces the same final store contents; the sequential traversal realises
  that data flow directly.
-/

namespace DfsModel

/-! ## Association-list maps (the logical heed / sled databases) -/

/-- Lookup in a logical key-value map, as `Database::get` inside a read
transaction. -/
def alGet {κ α : Type} [DecidableEq κ] : List (κ × α) → κ → Option α
  | [], _ => none
  | (k, v) :: rest, k' => if k' = k then some v else alGet rest k'

/-- Write to a logical key-value map, as `Database::put` inside a write
transaction: replaces the value at an existing key, otherwise appends. -/
def alPut {κ α : Type} [DecidableEq κ] : List (κ × α) → κ → α → List (κ × α)
  | [], k, v => [(k, v)]
  | (k', v') :: rest, k, v =>
      if k = k' then (k, v) :: rest else (k', v') :: alPut rest k v

/-- The keys of a logical map. -/
def alKeys {κ α : Type} (s : List (κ × α)) : List κ := s.map Prod.fst

/-! ## PutStatus (src/global_store/mod.rs) -/

/-- Rust `PutStatus { Ok, Exists }`. -/
inductive PutStatus where
  | ok
  | exists_
deriving DecidableEq

/-! ## Entities (src/peer/mod.rs, src/root/mod.rs) -/

/-- Rust `Peer { uuid, name }`. -/
structure Peer where
  uuid : Nat
  name : String
deriving DecidableEq

/-- Rust `StorableRoot { uuid, path, name, root_direntry_id }`. -/
structure StorableRoot where
  uuid : Nat
  path : String
  name : String
  root_direntry_id : Option Nat
deriving DecidableEq

/-! ## Global store (src/global_store/heed_store.rs) -/

/-- The three logical maps of the global Heed store:
`peers`, `roots` and `roots_names`. -/
structure GlobalStoreState where
  peers : List (Nat × Peer)
  roots : List (Nat × StorableRoot)
  root_names : List (String × Nat)
deriving DecidableEq

def emptyGS : GlobalStoreState := ⟨[], [], []⟩

/-- `Heed::put_peer` (global store): in one write transaction, when
`overwrite` is false and `peers[id]` is present return `Exists` without
mutation, otherwise write and commit. -/
def put_peer (s : GlobalStoreState) (id : Nat) (peer : Peer)
    (overwrite : Bool) : PutStatus × GlobalStoreState :=
  if !overwrite && (alGet s.peers id).isSome then
    (PutStatus.exists_, s)
  else
    (PutStatus.ok, ⟨alPut s.peers id peer, s.roots, s.root_names⟩)

/-- `Heed::get_peer`. -/
def get_peer (s : GlobalStoreState) (id : Nat) : Option Peer :=
  alGet s.peers id

/-- `Heed::get_all_peers`: all values of the `peers` map. -/
def get_all_peers (s : GlobalStoreState) : List Peer :=
  s.peers.map Prod.snd

/-- `Heed::put_root` (global store): one write transaction; when
`overwrite` is false and either `roots[id]` or `root_names[root.name]` is
present, return `Exists` without mutation; otherwise write both the
id-to-root mapping and the name-to-id mapping and commit. -/
def put_root (s : GlobalStoreState) (id : Nat) (root : StorableRoot)
    (overwrite : Bool) : PutStatus × GlobalStoreState :=
  if !overwrite &&
      ((alGet s.roots id).isSome || (alGet s.root_names root.name).isSome) then
    (PutStatus.exists_, s)
  else
    (PutStatus.ok,
     ⟨s.peers, alPut s.roots id root, alPut s.root_names root.name id⟩)

/-- `Heed::get_root`. -/
def get_root (s : GlobalStoreState) (id : Nat) : Option StorableRoot :=
  alGet s.roots id

/-- `Heed::get_root_by_name`: two-step lookup through `root_names`. -/
def get_root_by_name (s : GlobalStoreState) (name : String) :
    Option StorableRoot :=
  match alGet s.root_names name with
  | some id => alGet s.roots id
  | none => none

/-! ## Dfs facade (src/dfs_struct.rs) -/

/-- Rust `NewPeerError` (the backend-error variant is outside the model). -/
inductive NewPeerError where
  | PeerExists
deriving DecidableEq

/-- `Dfs::new_peer`: build a fresh `Peer` (fresh uuid from the supply,
name taken verbatim from the argument), `put_peer` with `overwrite=false`,
and map `Exists` to `PeerExists`. -/
def new_peer (s : GlobalStoreState) (fresh : Nat) (name : String) :
    Except NewPeerError (Peer × GlobalStoreState) :=
  let peer : Peer := ⟨fresh, name⟩
  match put_peer s fresh peer false with
  | (PutStatus.exists_, _) => Except.error NewPeerError.PeerExists
  | (PutStatus.ok, s') => Except.ok (peer, s')

/-- A sequence of `Dfs::new_peer` calls, one per name, each drawing the
next id from the fresh-uuid supply; `none` when any call fails. -/
def run_new_peers (s : GlobalStoreState) (fresh : Nat) :
    List String → Option GlobalStoreState
  | [] => some s
  | n :: rest =>
    match new_peer s fresh n with
    | Except.ok (_, s') => run_new_peers s' (fresh + 1) rest
    | Except.error _ => none

/-- What a path points to in the filesystem; `Path::exists` is "not none",
`Path::is_dir` is "some dir". -/
inductive FileKind where
  | file
  | dir
deriving DecidableEq

/-- Rust `NewRootError` (backend-error and Utf8 variants are outside the
model). -/
inductive NewRootError where
  | CanonicalizePath
  | PathDoesntExist (path : String)
  | PathIsNotDir (path : String)
  | RootExists
deriving DecidableEq

/-- `Root::new`: fresh uuid, given name and (canonicalized) path,
`root_direntry_id` initialized to `None`. -/
def mkNewRoot (id : Nat) (path name : String) : StorableRoot :=
  ⟨id, path, name, none⟩

/-- `Dfs::new_root`: fail `PathDoesntExist` if the path does not exist,
else fail `PathIsNotDir` if it is not a directory, else canonicalize the
path (`canon`, which may fail), construct the root with a fresh id, and
`put_root` with `overwrite=false`, mapping `Exists` to `RootExists`. -/
def new_root (fsys : String → Option FileKind) (canon : String → Option String)
    (s : GlobalStoreState) (fresh : Nat) (path name : String) :
    Except NewRootError (StorableRoot × GlobalStoreState) :=
  match fsys path with
  | none => Except.error (NewRootError.PathDoesntExist path)
  | some FileKind.file => Except.error (NewRootError.PathIsNotDir path)
  | some FileKind.dir =>
    match canon path with
    | none => Except.error NewRootError.CanonicalizePath
    | some cpath =>
      let root := mkNewRoot fresh cpath name
      match put_root s fresh root false with
      | (PutStatus.exists_, _) => Except.error NewRootError.RootExists
      | (PutStatus.ok, s') => Except.ok (root, s')

/-! ## Directory entries and the local store
(src/root/dir_entry.rs, src/root/local_store/{sled_store,heed_store}.rs) -/

/-- Rust `DirEntryType { Dir, File }`. -/
inductive DirEntryType where
  | dir
  | file
deriving DecidableEq

/-- Rust `StorableDirEntry { path, entry_type, uuid, parent }`. -/
structure StorableDirEntry where
  path : String
  entry_type : DirEntryType
  uuid : Nat
  parent : Option Nat
deriving DecidableEq

/-- The single logical map `direntries : id -> StorableDirEntry` of a
per-root local store. -/
abbrev LocalStoreState := List (Nat × StorableDirEntry)

/-- `Sled::put_direntry` and (the heed `LocalStore`) `Heed::put_direntry`:
in both backends the presence check on `id` is commented out in the source,
so the entry is inserted unconditionally — overwriting any existing entry —
and the status is always `Ok`; the `overwrite` flag is ignored. -/
def put_direntry (s : LocalStoreState) (id : Nat) (dir : StorableDirEntry)
    (overwrite : Bool) : PutStatus × LocalStoreState :=
  (PutStatus.ok, alPut s id dir)

/-- `Sled::get_direntry` / `Heed::get_direntry`. -/
def get_direntry (s : LocalStoreState) (id : Nat) : Option StorableDirEntry :=
  alGet s id

/-! ## ConnectedRoot::root_dir (src/root/mod.rs) -/

/-- The state a `ConnectedRoot` closes over: the opened local store, the
`root.root_direntry_id` field, and what the root's path currently points
to in the filesystem. -/
structure ConnectedRootState where
  path : String
  store : LocalStoreState
  root_direntry_id : Option Nat
  pathExists : Bool
  pathIsDir : Bool
deriving DecidableEq

/-- Rust `GetRootEntryError`: `ExistsErr` models the source's
`Exists(PathBuf)` (the root's path no longer exists), `NotDir` models
`NotDir(PathBuf)`; the backend-error variant is outside the model. -/
inductive GetRootEntryError where
  | ExistsErr (path : String)
  | NotDir (path : String)
deriving DecidableEq

/-- The root directory entry built by `ConnectedRoot::create_root`:
`DirEntry::new(self, "/", None, true)` with the fresh uuid drawn from the
supply. -/
def rootEntry (id : Nat) : StorableDirEntry :=
  ⟨"/", DirEntryType.dir, id, none⟩

/-- `ConnectedRoot::create_root`: fail `NotDir` if the root's path is not a
directory, otherwise allocate the root direntry with a fresh uuid and
persist it with `put_direntry(id, entry, overwrite=true)`. Note that the
source never writes the allocated id back into `root.root_direntry_id`. -/
def create_root (st : ConnectedRootState) (fresh : Nat) :
    Except GetRootEntryError (StorableDirEntry × LocalStoreState) :=
  if !st.pathIsDir then
    Except.error (GetRootEntryError.NotDir st.path)
  else
    Except.ok (rootEntry fresh, (put_direntry st.store fresh (rootEntry fresh) true).2)

/-- `ConnectedRoot::root_dir`: fail `ExistsErr` if the root's path no
longer exists; if `root.root_direntry_id` is set and that entry is found in
the local store, return it; otherwise fall through to `create_root`. The
returned store is the (possibly updated) local store; the
`root_direntry_id` field is never updated by the source. -/
def root_dir (st : ConnectedRootState) (fresh : Nat) :
    Except GetRootEntryError (StorableDirEntry × LocalStoreState) :=
  if !st.pathExists then
    Except.error (GetRootEntryError.ExistsErr st.path)
  else
    match st.root_direntry_id with
    | some id =>
      match get_direntry st.store id with
      | some entry => Except.ok (entry, st.store)
      | none => create_root st fresh
    | none => create_root st fresh

/-! ## The indexer (src/root/index.rs) -/

/-- Rust `FatalError` of the indexer. -/
inductive FatalError where
  | GetId
deriving DecidableEq

/-- The await on the oneshot reply channel inside `Inner::index_direntry`:
on `Ok(i)` the worker continues with the id `i`; on `Err` (the reply sender
was dropped, i.e. the persister is gone) the worker first sends
`FatalError::GetId` on the `fatal_errors` channel and then panics. The
first component `none` models the panic: the worker task aborts and never
produces an id; the second component is the `fatal_errors` channel content
after the call. -/
def await_id_reply (reply : Option Nat) (fatalQueue : List FatalError) :
    Option Nat × List FatalError :=
  match reply with
  | some i => (some i, fatalQueue)
  | none => (none, fatalQueue ++ [FatalError.GetId])

mutual
/-- A filesystem subtree as the indexer enumerates it: one node per
filesystem entry. Directory entries carry the list of entries inside them
(`FsForest`); enumeration is error-free in the model (per-path I/O errors
are out of scope of the properties proved here). -/
inductive FsTree where
  | file : FsTree
  | dir : FsForest → FsTree

inductive FsForest where
  | nil : FsForest
  | cons : FsTree → FsForest → FsForest
end

mutual
/-- The number of filesystem nodes in one subtree (the entry itself plus
everything below it). -/
def FsTree.size : FsTree → Nat
  | FsTree.file => 1
  | FsTree.dir f => 1 + f.size

/-- The number of filesystem nodes in a list of subtrees. -/
def FsForest.size : FsForest → Nat
  | FsForest.nil => 0
  | FsForest.cons t f => t.size + f.size
end

/-- The evolving indexer state: the fresh-uuid supply, the per-root local
store, and a ghost boolean `parentSeen` that records whether, at the moment
of every `put_direntry` issued so far, the entry's parent id was already
present in the store. In the source this ordering is forced by the oneshot
reply channel: a child's worker only learns its parent's id from the reply
the persister sends after the parent's own `put_direntry` committed. -/
structure IndexState where
  fresh : Nat
  store : LocalStoreState
  parentSeen : Bool
deriving DecidableEq

/-- One `DbMessage` handled by the persister (`Indexer::handle_db_message`):
construct a `DirEntry` with a fresh uuid, `path = Default::default()` (the
empty path), `parent = Some(msg.parent_id)` and the entry type from
`is_dir`; call `put_direntry(id, entry, overwrite=false)`; reply with the
new id (here: the id becomes the parent id of the recursive calls). The
ghost `parentSeen` conjunct records whether the parent was already stored
when this put happened. -/
def persistEntry (st : IndexState) (parentId : Nat) (ty : DirEntryType) :
    IndexState :=
  ⟨st.fresh + 1,
   (put_direntry st.store st.fresh ⟨"", ty, st.fresh, some parentId⟩ false).2,
   st.parentSeen && (alGet st.store parentId).isSome⟩

mutual
/-- Indexing of a single filesystem entry discovered inside a directory
whose entry has id `parentId` (`Inner::process_task` body, one iteration):
the entry is sent to the persister (`persistEntry`); if it is itself a
directory, a `Task` for it is enqueued with the freshly returned id as
parent, which eventually runs `indexForest` on its children. -/
def indexTree (t : FsTree) (parentId : Nat) (st : IndexState) : IndexState :=
  match t with
  | FsTree.file => persistEntry st parentId DirEntryType.file
  | FsTree.dir children =>
      indexForest children st.fresh (persistEntry st parentId DirEntryType.dir)

/-- Indexing of all entries of one directory whose entry has id
`parentId` (the `while let Some(entry)` loop of `Inner::process_task`). -/
def indexForest (f : FsForest) (parentId : Nat) (st : IndexState) : IndexState :=
  match f with
  | FsForest.nil => st
  | FsForest.cons t rest => indexForest rest parentId (indexTree t parentId st)
end

/-- A full successful `index()` run on a freshly connected root whose
filesystem content is `f`: `Indexer::new` first obtains the root direntry
via `root_dir()`, which on the empty store of a fresh root persists
`rootEntry 0` (with `put_direntry(.., overwrite=true)`), seeds the todo
queue with the root task, and the driver then processes every directory to
quiescence. -/
def indexRun (f : FsForest) : IndexState :=
  indexForest f 0 ⟨1, (put_direntry [] 0 (rootEntry 0) true).2, true⟩

/-! ## The driver loop and its shared counters (src/root/index.rs) -/

/-- The shared atomic counters of `Inner`, as read by the driver in the
`task_done` branch of `Indexer::index`. -/
structure Counters where
  queued : Nat
  done : Nat
  spawned : Nat
  done_first : Bool
deriving DecidableEq

/-- The termination test of the `task_done` branch: `todo = queued - done`,
`doing = spawned - done`, break when `todo == 0 && doing == 0 && done_first`. -/
def task_done_check (c : Counters) : Bool :=
  (c.queued - c.done == 0) && (c.spawned - c.done == 0) && c.done_first

/-- The events the driver's select loop multiplexes over, in its biased
priority order. -/
inductive DriverEvent where
  | noNextTask
  | taskDone
  | fatal (e : FatalError)
  | dbMsg
  | pumpDone
deriving DecidableEq

/-- What one iteration of the driver loop does with the received event. -/
inductive DriverOutcome where
  | exitOk
  | exitErr (e : FatalError)
  | cont
deriving DecidableEq

/-- One iteration of the select loop in `Indexer::index`: the
no-more-tasks signal breaks out (successful exit); a `task_done` heartbeat
breaks out exactly when `task_done_check` passes; a received fatal error
returns `Err(IndexError::FatalError(e))`; a db message or a completed
task-pump iteration continues the loop. -/
def driverStep (c : Counters) (ev : DriverEvent) : DriverOutcome :=
  match ev with
  | DriverEvent.noNextTask => DriverOutcome.exitOk
  | DriverEvent.taskDone =>
      if task_done_check c then DriverOutcome.exitOk else DriverOutcome.cont
  | DriverEvent.fatal e => DriverOutcome.exitErr e
  | DriverEvent.dbMsg => DriverOutcome.cont
  | DriverEvent.pumpDone => DriverOutcome.cont

/-- The counter states reachable in a run of the indexer. The driver seeds
the todo queue with the root task and starts from
`queued = 1, done = 0, spawned = 0, done_first = false`; a worker enqueues
a task and increments `queued`; the driver dequeues a previously enqueued
task and increments `spawned` (never more dequeues than enqueues); a
spawned worker finishes, increments `done` and possibly sets `done_first`
(never more completions than spawns). -/
inductive Reachable : Counters → Prop where
  | init : Reachable ⟨1, 0, 0, false⟩
  | enqueue (c : Counters) : Reachable c →
      Reachable ⟨c.queued + 1, c.done, c.spawned, c.done_first⟩
  | spawnWorker (c : Counters) : Reachable c → c.spawned < c.queued →
      Reachable ⟨c.queued, c.done, c.spawned + 1, c.done_first⟩
  | complete (c : Counters) (b : Bool) : Reachable c → c.done < c.spawned →
      Reachable ⟨c.queued, c.done + 1, c.spawned, c.done_first || b⟩

/-- Relation between indexer states bracketing the processing of `n`
filesystem nodes: the fresh-id supply advanced; all stored keys stay below
the supply; exactly `n` entries were added; old entries persist; every
newly added entry's parent id is present in the final store; the number of
parentless (root) entries is unchanged; and the ghost parent-ordering
record is preserved. -/
structure IndexStep (st st' : IndexState) (n : Nat) : Prop where
  fresh_le : st.fresh ≤ st'.fresh
  keys_lt : ∀ k ∈ alKeys st'.store, k < st'.fresh
  length_eq : st'.store.length = st.store.length + n
  mem_mono : ∀ x ∈ st.store, x ∈ st'.store
  new_parent : ∀ x ∈ st'.store,
    x ∈ st.store ∨ ∃ q, x.2.parent = some q ∧ q ∈ alKeys st'.store
  root_count : st'.store.countP (fun x => x.2.parent.isNone) =
    st.store.countP (fun x => x.2.parent.isNone)
  seen_mono : st.parentSeen = true → st'.parentSeen = true

/-! ## Concrete inputs used by witnesses and counterexamples -/

/-- A demo filesystem for `new_root`: `"d"` is an existing directory,
`"f"` an existing regular file, everything else does not exist. -/
def demoFsys : String → Option FileKind := fun p =>
  if p = "d" then some FileKind.dir
  else if p = "f" then some FileKind.file
  else none

/-- A canonicalization that always succeeds and is the identity. -/
def idCanon : String → Option String := fun p => some p

/-- A demo root named `"x"`. -/
def demoRoot : StorableRoot := ⟨0, "d", "x", none⟩

/-- A global store already holding the root `"x"` under id 0 together with
its name index entry. -/
def gsWithX : GlobalStoreState := ⟨[], [(0, demoRoot)], [("x", 0)]⟩

/-- A demo direntry stored under id 0. -/
def demoEntryA : StorableDirEntry := ⟨"a", DirEntryType.file, 0, none⟩

/-- A different demo direntry, to be written over id 0. -/
def demoEntryB : StorableDirEntry := ⟨"b", DirEntryType.dir, 0, some 7⟩

/-- A local store with an entry already present at id 0. -/
def demoLS : LocalStoreState := [(0, demoEntryA)]

/-- A demo filesystem content: one directory containing one file. -/
def demoForest : FsForest :=
  FsForest.cons (FsTree.dir (FsForest.cons FsTree.file FsForest.nil)) FsForest.nil

/-- A fresh `ConnectedRoot` right after `new_root` + `connect`: local store
empty, `root_direntry_id = None`, path exists and is a directory. -/
def freshCR : ConnectedRootState := ⟨"d", [], none, true, true⟩

/-! ## Lemmas about the logical maps -/

theorem alGet_eq_none_iff {κ α : Type} [DecidableEq κ] (s : List (κ × α)) (k : κ) :
    alGet s k = none ↔ k ∉ alKeys s := by
  induction s with
  | nil => simp [alGet, alKeys]
  | cons p rest ih =>
    obtain ⟨k1, v1⟩ := p
    by_cases h : k = k1
    · simp [alGet, alKeys, h]
    · simp [alGet, alKeys, h, ih]

theorem alGet_isSome_iff {κ α : Type} [DecidableEq κ] (s : List (κ × α)) (k : κ) :
    (alGet s k).isSome = true ↔ k ∈ alKeys s := by
  rw [Option.isSome_iff_ne_none, ne_eq, alGet_eq_none_iff, not_not]

theorem alPut_eq_append {κ α : Type} [DecidableEq κ] (s : List (κ × α)) (k : κ)
    (v : α) (h : k ∉ alKeys s) : alPut s k v = s ++ [(k, v)] := by
  induction s with
  | nil => rfl
  | cons p rest ih =>
    obtain ⟨k1, v1⟩ := p
    simp only [alKeys, List.map_cons, List.mem_cons, not_or] at h
    simp only [alPut, if_neg h.1]
    rw [ih]
    · rfl
    · exact h.2

theorem alGet_alPut_self {κ α : Type} [DecidableEq κ] (s : List (κ × α)) (k : κ)
    (v : α) : alGet (alPut s k v) k = some v := by
  induction s with
  | nil => simp [alPut, alGet]
  | cons p rest ih =>
    obtain ⟨k1, v1⟩ := p
    by_cases h : k = k1
    · simp [alPut, alGet, h]
    · simp [alPut, alGet, h, ih]

theorem mem_alKeys_iff {κ α : Type} (s : List (κ × α)) (k : κ) :
    k ∈ alKeys s ↔ ∃ v, (k, v) ∈ s := by
  simp only [alKeys, List.mem_map]
  constructor
  · rintro ⟨⟨a, b⟩, hab, rfl⟩
    exact ⟨b, hab⟩
  · rintro ⟨v, hv⟩
    exact ⟨(k, v), hv, rfl⟩

/-! ## Invariants of the indexer run -/

theorem IndexStep.refl (st : IndexState)
    (hk : ∀ k ∈ alKeys st.store, k < st.fresh) : IndexStep st st 0 :=
  ⟨le_refl _, hk, (Nat.add_zero _).symm, fun _ hx => hx,
   fun x hx => Or.inl hx, rfl, fun h => h⟩

theorem IndexStep.keys_mono {st st' : IndexState} {n : Nat}
    (h : IndexStep st st' n) :
    ∀ k ∈ alKeys st.store, k ∈ alKeys st'.store := by
  intro k hk
  obtain ⟨v, hv⟩ := (mem_alKeys_iff _ _).mp hk
  exact (mem_alKeys_iff _ _).mpr ⟨v, h.mem_mono _ hv⟩

theorem IndexStep.trans {a b c : IndexState} {m n : Nat}
    (h1 : IndexStep a b m) (h2 : IndexStep b c n) : IndexStep a c (m + n) := by
  refine ⟨le_trans h1.fresh_le h2.fresh_le, h2.keys_lt, ?_, ?_, ?_, ?_, ?_⟩
  · rw [h2.length_eq, h1.length_eq, Nat.add_assoc]
  · exact fun x hx => h2.mem_mono x (h1.mem_mono x hx)
  · intro x hx
    rcases h2.new_parent x hx with hxb | ⟨q, hq1, hq2⟩
    · rcases h1.new_parent x hxb with hxa | ⟨q, hq1, hq2⟩
      · exact Or.inl hxa
      · exact Or.inr ⟨q, hq1, h2.keys_mono q hq2⟩
    · exact Or.inr ⟨q, hq1, hq2⟩
  · rw [h2.root_count, h1.root_count]
  · exact fun h => h2.seen_mono (h1.seen_mono h)

theorem persistEntry_step (st : IndexState) (parentId : Nat) (ty : DirEntryType)
    (hk : ∀ k ∈ alKeys st.store, k < st.fresh)
    (hp : parentId ∈ alKeys st.store) :
    IndexStep st (persistEntry st parentId ty) 1 ∧
    (persistEntry st parentId ty).fresh = st.fresh + 1 ∧
    st.fresh ∈ alKeys (persistEntry st parentId ty).store := by
  have hfr : st.fresh ∉ alKeys st.store := fun h => absurd (hk st.fresh h) (lt_irrefl _)
  have happ : alPut st.store st.fresh ⟨"", ty, st.fresh, some parentId⟩ =
      st.store ++ [(st.fresh, ⟨"", ty, st.fresh, some parentId⟩)] :=
    alPut_eq_append _ _ _ hfr
  have hstore : (persistEntry st parentId ty).store =
      st.store ++ [(st.fresh, ⟨"", ty, st.fresh, some parentId⟩)] := by
    simp only [persistEntry, put_direntry]
    exact happ
  have hkeys : alKeys (persistEntry st parentId ty).store =
      alKeys st.store ++ [st.fresh] := by
    rw [hstore]
    simp [alKeys]
  refine ⟨⟨Nat.le_succ _, ?_, ?_, ?_, ?_, ?_, ?_⟩, rfl, ?_⟩
  · intro k hkm
    rw [hkeys, List.mem_append, List.mem_singleton] at hkm
    rcases hkm with hkm | rfl
    · exact lt_trans (hk k hkm) (Nat.lt_succ_self _)
    · exact Nat.lt_succ_self _
  · rw [hstore, List.length_append, List.length_singleton]
  · intro x hx
    rw [hstore]
    exact List.mem_append_left _ hx
  · intro x hx
    rw [hstore, List.mem_append, List.mem_singleton] at hx
    rcases hx with hx | rfl
    · exact Or.inl hx
    · refine Or.inr ⟨parentId, rfl, ?_⟩
      rw [hkeys, List.mem_append]
      exact Or.inl hp
  · rw [hstore, List.countP_append]
    simp [List.countP_cons]
  · intro hseen
    have hsome : (alGet st.store parentId).isSome = true :=
      (alGet_isSome_iff _ _).mpr hp
    simp only [persistEntry]
    rw [hseen, hsome]
    rfl
  · rw [hkeys, List.mem_append, List.mem_singleton]
    exact Or.inr rfl

mutual
theorem indexTree_step (t : FsTree) (parentId : Nat) (st : IndexState)
    (hk : ∀ k ∈ alKeys st.store, k < st.fresh)
    (hp : parentId ∈ alKeys st.store) :
    IndexStep st (indexTree t parentId st) t.size := by
  match t with
  | FsTree.file =>
    have h := persistEntry_step st parentId DirEntryType.file hk hp
    simpa [indexTree, FsTree.size] using h.1
  | FsTree.dir children =>
    have h := persistEntry_step st parentId DirEntryType.dir hk hp
    have h2 := indexForest_step children st.fresh
      (persistEntry st parentId DirEntryType.dir) h.1.keys_lt h.2.2
    have h3 := h.1.trans h2
    simpa [indexTree, FsTree.size] using h3

theorem indexForest_step (f : FsForest) (parentId : Nat) (st : IndexState)
    (hk : ∀ k ∈ alKeys st.store, k < st.fresh)
    (hp : parentId ∈ alKeys st.store) :
    IndexStep st (indexForest f parentId st) f.size := by
  match f with
  | FsForest.nil =>
    simpa [indexForest, FsForest.size] using IndexStep.refl st hk
  | FsForest.cons t rest =>
    have h1 := indexTree_step t parentId st hk hp
    have h2 := indexForest_step rest parentId (indexTree t parentId st)
      h1.keys_lt (h1.keys_mono parentId hp)
    have h3 := h1.trans h2
    simpa [indexForest, FsForest.size] using h3
end

theorem indexRun_step (f : FsForest) :
    IndexStep ⟨1, [(0, rootEntry 0)], true⟩ (indexRun f) f.size := by
  have hrw : indexRun f = indexForest f 0 ⟨1, [(0, rootEntry 0)], true⟩ := rfl
  rw [hrw]
  refine indexForest_step f 0 ⟨1, [(0, rootEntry 0)], true⟩ ?_ ?_
  · intro k hkm
    simp [alKeys] at hkm
    simp [hkm]
  · simp [alKeys]

/-- C1: after a successful `index()` on a freshly connected root whose
(error-free) filesystem tree has `k = f.size` nodes, the per-root store
holds exactly `k + 1` direntries (the root entry plus one per filesystem
entry); every stored entry's parent id, when present, refers to an entry
stored in the same store; and exactly one stored entry has
`parent = absent`. -/
theorem index_store_invariants (f : FsForest) :
    (indexRun f).store.length = f.size + 1 ∧
    (∀ x ∈ (indexRun f).store, ∀ q, x.2.parent = some q →
      (alGet (indexRun f).store q).isSome = true) ∧
    (indexRun f).store.countP (fun x => x.2.parent.isNone) = 1 := by
  have h := indexRun_step f
  refine ⟨?_, ?_, ?_⟩
  · rw [h.length_eq]
    simp [Nat.add_comm]
  · intro x hx q hq
    rcases h.new_parent x hx with hx0 | ⟨q', hq', hq'k⟩
    · simp only [List.mem_singleton] at hx0
      rw [hx0] at hq
      simp [rootEntry] at hq
    · rw [hq] at hq'
      obtain rfl : q' = q := (Option.some.injEq _ _).mp hq'.symm
      exact (alGet_isSome_iff _ _).mpr hq'k
  · rw [h.root_count]
    decide

/-- C1 witness: on the concrete tree with one directory containing one
file (2 nodes) the final store holds 3 entries, and the file entry's
parent id 1 (the directory's id) is present in the store. -/
theorem index_store_invariants_witness :
    (indexRun demoForest).store.length = demoForest.size + 1 ∧
    (alGet (indexRun demoForest).store 1).isSome = true :=
  ⟨(index_store_invariants demoForest).1,
   (index_store_invariants demoForest).2.1
     (2, ⟨"", DirEntryType.file, 2, some 1⟩) (by decide) 1 rfl⟩

/-- C8: in every indexing run, each direntry persisted with a present
parent id is persisted only after its parent's direntry: the ghost
`parentSeen` record — which checks at every `put_direntry` that the
parent id was already committed to the store, exactly the ordering the
oneshot reply channel enforces in the source — holds at the end of every
run. -/
theorem index_parent_before_child (f : FsForest) :
    (indexRun f).parentSeen = true :=
  (indexRun_step f).seen_mono rfl

/-! ## Driver termination (C2) -/

theorem reachable_bounds {c : Counters} (h : Reachable c) :
    c.done ≤ c.spawned ∧ c.spawned ≤ c.queued := by
  induction h with
  | init => exact ⟨Nat.le_refl 0, Nat.zero_le 1⟩
  | enqueue c _ ih => exact ⟨ih.1, Nat.le_trans ih.2 (Nat.le_succ _)⟩
  | spawnWorker c _ hlt ih => exact ⟨Nat.le_trans ih.1 (Nat.le_succ _), hlt⟩
  | complete c b _ hlt ih => exact ⟨hlt, ih.2⟩

/-- C2: the `task_done` branch of the driver loop exits successfully
exactly when the counters read there satisfy `queued - done = 0`,
`spawned - done = 0` and `done_first`; and in every reachable counter
state this conjunction implies `done = queued` and `spawned = done`:
every enqueued task has completed and no worker is in flight
(quiescence). -/
theorem driver_taskdone_termination (c : Counters) :
    (driverStep c DriverEvent.taskDone = DriverOutcome.exitOk ↔
      (c.queued - c.done = 0 ∧ c.spawned - c.done = 0 ∧ c.done_first = true)) ∧
    (Reachable c → task_done_check c = true →
      c.done = c.queued ∧ c.spawned = c.done) := by
  constructor
  · constructor
    · intro h
      by_cases hb : task_done_check c = true
      · have hb' := hb
        unfold task_done_check at hb'
        simp only [Bool.and_eq_true, beq_iff_eq] at hb'
        exact ⟨hb'.1.1, hb'.1.2, hb'.2⟩
      · simp only [driverStep, if_neg hb] at h
        exact absurd h (by intro hcon; cases hcon)
    · rintro ⟨h1, h2, h3⟩
      have hb : task_done_check c = true := by
        unfold task_done_check
        simp [h1, h2, h3]
      simp [driverStep, hb]
  · intro hr hchk
    obtain ⟨hds, hsq⟩ := reachable_bounds hr
    unfold task_done_check at hchk
    simp only [Bool.and_eq_true, beq_iff_eq] at hchk
    obtain ⟨⟨hq, hs⟩, _⟩ := hchk
    constructor
    · omega
    · omega

/-- C2 witness: the state with one queued, spawned and completed task and
`done_first` set is reachable (seed, spawn the root worker, complete it)
and quiescent. -/
theorem driver_taskdone_termination_witness :
    (⟨1, 1, 1, true⟩ : Counters).done = (⟨1, 1, 1, true⟩ : Counters).queued ∧
    (⟨1, 1, 1, true⟩ : Counters).spawned = (⟨1, 1, 1, true⟩ : Counters).done :=
  (driver_taskdone_termination ⟨1, 1, 1, true⟩).2
    (Reachable.complete ⟨1, 0, 1, false⟩ true
      (Reachable.spawnWorker ⟨1, 0, 0, false⟩ Reachable.init (by decide))
      (by decide))
    (by decide)

/-! ## Global-store put_root (C3) -/

/-- C3: `put_root(id, root, overwrite=false)` returns `Exists` without
mutating the store whenever `roots[id]` or `root_names[root.name]` is
present; otherwise it returns `Ok` and commits both the id-to-root and
the name-to-id mappings in the same transaction (leaving `peers`
untouched), after which any further non-overwriting put of a root with the
same name returns `Exists` — the global uniqueness of root names. -/
theorem put_root_spec (s : GlobalStoreState) (id : Nat) (r : StorableRoot) :
    (((alGet s.roots id).isSome = true ∨
        (alGet s.root_names r.name).isSome = true) →
      put_root s id r false = (PutStatus.exists_, s)) ∧
    (¬((alGet s.roots id).isSome = true ∨
        (alGet s.root_names r.name).isSome = true) →
      (put_root s id r false).1 = PutStatus.ok ∧
      get_root (put_root s id r false).2 id = some r ∧
      alGet (put_root s id r false).2.root_names r.name = some id ∧
      (put_root s id r false).2.peers = s.peers ∧
      (∀ id2 r2, r2.name = r.name →
        put_root (put_root s id r false).2 id2 r2 false =
          (PutStatus.exists_, (put_root s id r false).2))) := by
  constructor
  · intro h
    have hb : ((alGet s.roots id).isSome ||
        (alGet s.root_names r.name).isSome) = true := by
      rcases h with h | h <;> simp [h]
    simp [put_root, hb]
  · intro h
    push_neg at h
    have hb : ((alGet s.roots id).isSome ||
        (alGet s.root_names r.name).isSome) = false := by
      simp only [Bool.or_eq_false_iff]
      exact ⟨Bool.not_eq_true _ ▸ Bool.eq_false_iff.mpr (fun hc => h.1 hc),
        Bool.eq_false_iff.mpr (fun hc => h.2 hc)⟩
    have hput : put_root s id r false =
        (PutStatus.ok, ⟨s.peers, alPut s.roots id r, alPut s.root_names r.name id⟩) := by
      simp [put_root, hb]
    refine ⟨by rw [hput], ?_, ?_, by rw [hput], ?_⟩
    · rw [hput]
      exact alGet_alPut_self _ _ _
    · rw [hput]
      exact alGet_alPut_self _ _ _
    · intro id2 r2 hname
      rw [hput]
      have hn : (alGet (alPut s.root_names r.name id) r2.name).isSome = true := by
        rw [hname, alGet_alPut_self]
        rfl
      simp [put_root, hn]

/-- C3 witness: on the empty global store, putting the demo root commits
and is readable back under its id. -/
theorem put_root_spec_witness :
    (put_root emptyGS 0 demoRoot false).1 = PutStatus.ok ∧
    get_root (put_root emptyGS 0 demoRoot false).2 0 = some demoRoot :=
  ⟨((put_root_spec emptyGS 0 demoRoot).2 (by decide)).1,
   ((put_root_spec emptyGS 0 demoRoot).2 (by decide)).2.1⟩

/-! ## Local-store put_direntry (C4) -/

/-- C4 counterexample: with `demoEntryA` already stored under id 0,
`put_direntry(0, demoEntryB, overwrite=false)` returns `Ok` — not
`Exists` — and overwrites the stored entry (the presence check is
commented out in both LocalStore backends). -/
theorem put_direntry_overwrites_cex :
    (alGet demoLS 0).isSome = true ∧
    put_direntry demoLS 0 demoEntryB false = (PutStatus.ok, [(0, demoEntryB)]) ∧
    demoEntryB ≠ demoEntryA := by
  refine ⟨rfl, rfl, ?_⟩
  decide

/-- C4 amended: `put_direntry` on the LocalStore backends ignores both the
presence of an existing entry with the same id and the `overwrite` flag:
it always returns `Ok` and stores the new entry under the id. -/
theorem put_direntry_always_ok (s : LocalStoreState) (id : Nat)
    (e : StorableDirEntry) (overwrite : Bool) :
    (put_direntry s id e overwrite).1 = PutStatus.ok ∧
    get_direntry (put_direntry s id e overwrite).2 id = some e :=
  ⟨rfl, alGet_alPut_self s id e⟩

/-! ## ConnectedRoot::root_dir (C5) -/

/-- C5 (documents the divergence): on a freshly created `ConnectedRoot`
(`root_direntry_id = None`, empty store, path an existing directory) the
first `root_dir()` call does allocate and persist the entry with path
`"/"` and parent absent — but because the source never writes the
allocated id back into `root.root_direntry_id`, the second `root_dir()`
call falls into `create_root` again and allocates a second, different
root entry: the returned ids differ, and the store now holds two
parentless entries. -/
theorem root_dir_fresh_each_call :
    root_dir freshCR 0 = Except.ok (rootEntry 0, [(0, rootEntry 0)]) ∧
    (rootEntry 0).path = "/" ∧ (rootEntry 0).parent = none ∧
    root_dir ⟨"d", [(0, rootEntry 0)], none, true, true⟩ 1 =
      Except.ok (rootEntry 1, [(0, rootEntry 0), (1, rootEntry 1)]) ∧
    (rootEntry 0).uuid ≠ (rootEntry 1).uuid := by
  refine ⟨rfl, rfl, rfl, rfl, ?_⟩
  decide

/-! ## Dfs::new_root error paths (C6) -/

/-- C6: `new_root` fails with `PathDoesntExist` when the path does not
exist, with `PathIsNotDir` when it exists but is not a directory (checked
in that order, before canonicalization and before any store access: the
conclusions hold for every `canon` and every store state), and with
`RootExists` when the global store's `put_root` reports `Exists`. -/
theorem new_root_error_spec (fsys : String → Option FileKind)
    (canon : String → Option String) (s : GlobalStoreState) (fresh : Nat)
    (path name : String) :
    (fsys path = none →
      new_root fsys canon s fresh path name =
        Except.error (NewRootError.PathDoesntExist path)) ∧
    (fsys path = some FileKind.file →
      new_root fsys canon s fresh path name =
        Except.error (NewRootError.PathIsNotDir path)) ∧
    (∀ cpath, fsys path = some FileKind.dir → canon path = some cpath →
      (put_root s fresh (mkNewRoot fresh cpath name) false).1 = PutStatus.exists_ →
      new_root fsys canon s fresh path name =
        Except.error NewRootError.RootExists) := by
  refine ⟨?_, ?_, ?_⟩
  · intro h
    simp [new_root, h]
  · intro h
    simp [new_root, h]
  · intro cpath h1 h2 h3
    rcases hput : put_root s fresh (mkNewRoot fresh cpath name) false with ⟨st, s2⟩
    rw [hput] at h3
    simp only at h3
    subst h3
    simp [new_root, h1, h2, hput]

/-- C6 witness: on the demo filesystem, `new_root` on a missing path,
on a file path, and on a directory whose chosen name is already taken,
produces the three errors. -/
theorem new_root_error_spec_witness :
    new_root demoFsys idCanon emptyGS 0 "missing" "x" =
      Except.error (NewRootError.PathDoesntExist "missing") ∧
    new_root demoFsys idCanon emptyGS 0 "f" "x" =
      Except.error (NewRootError.PathIsNotDir "f") ∧
    new_root demoFsys idCanon gsWithX 1 "d" "x" =
      Except.error NewRootError.RootExists :=
  ⟨(new_root_error_spec demoFsys idCanon emptyGS 0 "missing" "x").1 rfl,
   (new_root_error_spec demoFsys idCanon emptyGS 0 "f" "x").2.1 rfl,
   (new_root_error_spec demoFsys idCanon gsWithX 1 "d" "x").2.2 "d" rfl rfl rfl⟩

/-! ## Dfs::new_peer counting (C7) -/

theorem run_new_peers_total (names : List String) :
    ∀ (s : GlobalStoreState) (fresh : Nat),
      (∀ k ∈ alKeys s.peers, k < fresh) →
      ∃ s', run_new_peers s fresh names = some s' ∧
        s'.peers.length = s.peers.length + names.length := by
  induction names with
  | nil =>
    intro s fresh _
    exact ⟨s, rfl, rfl⟩
  | cons n rest ih =>
    intro s fresh hk
    have hfr : fresh ∉ alKeys s.peers := fun h => absurd (hk fresh h) (lt_irrefl _)
    have hnone : alGet s.peers fresh = none := (alGet_eq_none_iff _ _).mpr hfr
    have happ : alPut s.peers fresh ⟨fresh, n⟩ = s.peers ++ [(fresh, ⟨fresh, n⟩)] :=
      alPut_eq_append _ _ _ hfr
    have hnp : new_peer s fresh n =
        Except.ok (⟨fresh, n⟩,
          ⟨alPut s.peers fresh ⟨fresh, n⟩, s.roots, s.root_names⟩) := by
      simp [new_peer, put_peer, hnone]
    have hk' : ∀ k ∈ alKeys (GlobalStoreState.mk
        (alPut s.peers fresh ⟨fresh, n⟩) s.roots s.root_names).peers,
        k < fresh + 1 := by
      intro k hkm
      simp only [happ] at hkm
      rw [show alKeys (s.peers ++ [(fresh, (⟨fresh, n⟩ : Peer))]) =
        alKeys s.peers ++ [fresh] by simp [alKeys]] at hkm
      rw [List.mem_append, List.mem_singleton] at hkm
      rcases hkm with hkm | rfl
      · exact Nat.lt_trans (hk k hkm) (Nat.lt_succ_self _)
      · exact Nat.lt_succ_self _
    obtain ⟨s', hrun, hlen⟩ :=
      ih ⟨alPut s.peers fresh ⟨fresh, n⟩, s.roots, s.root_names⟩ (fresh + 1) hk'
    refine ⟨s', ?_, ?_⟩
    · simp [run_new_peers, hnp, hrun]
    · rw [hlen]
      simp [happ]
      omega

/-- C7: starting from the empty global store, a sequence of `n` `new_peer`
calls — each peer getting a fresh id — all succeed regardless of duplicate
names, and `get_all_peers` on the resulting store returns exactly `n`
peers (peer identity is the fresh id, so name collisions never reject or
merge peers). -/
theorem new_peers_count (names : List String) :
    ∃ s', run_new_peers emptyGS 0 names = some s' ∧
      (get_all_peers s').length = names.length := by
  obtain ⟨s', h1, h2⟩ := run_new_peers_total names emptyGS 0
    (by intro k hk; simp [emptyGS, alKeys] at hk)
  refine ⟨s', h1, ?_⟩
  simp only [get_all_peers, List.length_map, h2, emptyGS, List.length_nil,
    Nat.zero_add]

/-! ## Name validation (C9) -/

/-- C9 counterexample: `new_peer` with the empty string as name succeeds
and returns a peer whose name is empty — the operation does not reject an
empty name. -/
theorem new_peer_empty_name_cex :
    new_peer emptyGS 0 "" =
      Except.ok (⟨0, ""⟩, ⟨[(0, ⟨0, ""⟩)], [], []⟩) ∧
    (Peer.mk 0 "").name = "" :=
  ⟨rfl, rfl⟩

/-- C9 amended: neither `new_peer` nor `new_root` validates the name
string; a successful call returns a Peer / Root whose name is exactly the
argument, which may in particular be empty. -/
theorem name_passthrough (s : GlobalStoreState) (fresh : Nat) (name : String) :
    (∀ p s', new_peer s fresh name = Except.ok (p, s') → p.name = name) ∧
    (∀ fsys canon path r s',
      new_root fsys canon s fresh path name = Except.ok (r, s') →
        r.name = name) := by
  constructor
  · intro p s' h
    simp only [new_peer] at h
    split at h
    · exact Except.noConfusion h
    · injection h with h'
      injection h' with h1 h2
      rw [← h1]
  · intro fsys canon path r s' h
    simp only [new_root] at h
    split at h
    · exact Except.noConfusion h
    · exact Except.noConfusion h
    · split at h
      · exact Except.noConfusion h
      · split at h
        · exact Except.noConfusion h
        · injection h with h'
          injection h' with h1 h2
          rw [← h1]
          rfl

/-- C9 witness: applying the amended claim to the empty-name `new_peer`
call: the returned peer's name is the (empty) argument. -/
theorem name_passthrough_witness : (Peer.mk 0 "").name = "" :=
  (name_passthrough emptyGS 0 "").1 ⟨0, ""⟩ ⟨[(0, ⟨0, ""⟩)], [], []⟩ rfl

/-! ## Worker reply-channel drop (C10) -/

/-- C10: when the oneshot reply channel is dropped before a reply arrives
(`reply = none`, the persister is gone), the worker's await in
`Inner::index_direntry` sends `FatalError::GetId` on the fatal-errors
channel and then panics: it never produces an id, so the worker task
aborts by panic rather than returning normally. -/
theorem await_id_reply_drop (fatalQueue : List FatalError) :
    (await_id_reply none fatalQueue).1 = none ∧
    (await_id_reply none fatalQueue).2 = fatalQueue ++ [FatalError.GetId] :=
  ⟨rfl, rfl⟩

end DfsModel
